import Mathlib

/-!
Shallow embedding of the request-handling and authorization pipeline of the
Notes API (src/backend/server.js together with
src/backend/validation/note.schema.js).

Conventions of the embedding:
* the persistent store is a `List Note`; prisma's `findUnique`/`update` on the
  unique key `id` become a first-match lookup and a first-match rewrite;
* timestamps are integers; `new Date()` becomes an explicit `now : Int`
  argument;
* a request body parsed by `express.json()` is a `Json` value; the fields of a
  parsed object are a key/value list with distinct keys, looked up first-match;
* JavaScript `Number(req.params.id)` results are modelled as `Option Int`:
  `none` stands for `NaN` and for non-integer numbers, both of which
  `Number.isInteger` rejects identically;
* the supabase call `supabase.auth.getUser(token)` is a function
  `String → ProviderResult`: `ok` when it returns a user, `rejected` when it
  returns an error or no user, `thrown` when the awaited call throws;
* an exception object reaching the central error handler is an `ErrObj`;
  its `status`/`code` are `Option`s (`none` = absent) and JavaScript
  falsiness of `0` and `""` is spelled out where the code uses `||`.
-/

namespace NotesApp

/-- JSON values as the body parser delivers them to `noteSchema.safeParse`. -/
inductive Json where
  | null
  | bool (b : Bool)
  | num (n : Int)
  | str (s : String)
  | arr (elems : List Json)
  | obj (fields : List (String × Json))

deriving instance DecidableEq for Except

/-- A stored `Note` row (the prisma model used by server.js). -/
structure Note where
  id : Int
  title : String
  content : Option String
  userId : String
  createdAt : Int
  deletedAt : Option Int
deriving DecidableEq, Repr

/-- One zod issue: a path into the payload and a message.  `noteSchema`
produces paths `["title"]` and `["content"]`; a non-object payload gets the
empty path. -/
structure Issue where
  path : List String
  message : String
deriving DecidableEq, Repr

/-- The `parsed.data` of a successful `noteSchema.safeParse`. -/
structure ParsedNote where
  title : String
  content : Option String
deriving DecidableEq, Repr

/-- Name of a JSON value's type, as zod reports it in type-error messages. -/
def jsonTypeName : Json → String
  | .null => "null"
  | .bool _ => "boolean"
  | .num _ => "number"
  | .str _ => "string"
  | .arr _ => "array"
  | .obj _ => "object"

/-- Field lookup in a parsed JSON object (keys are distinct after
`JSON.parse`), `none` = the key is absent, i.e. `undefined` in JS. -/
def lookupField (fields : List (String × Json)) (k : String) : Option Json :=
  fields.lookup k

/-- Checks of `noteSchema`'s `title` field:
`z.string().min(1, "Title is required").max(200, "Title too long")`. -/
def parseTitle : Option Json → Except (List Issue) String
  | none => .error [⟨["title"], "Required"⟩]
  | some (.str t) =>
      if t.length < 1 then .error [⟨["title"], "Title is required"⟩]
      else if 200 < t.length then .error [⟨["title"], "Title too long"⟩]
      else .ok t
  | some v => .error [⟨["title"], "Expected string, received " ++ jsonTypeName v⟩]

/-- Checks of `noteSchema`'s `content` field:
`z.string().max(5000, "Content too long").optional()`. -/
def parseContent : Option Json → Except (List Issue) (Option String)
  | none => .ok none
  | some (.str c) =>
      if 5000 < c.length then .error [⟨["content"], "Content too long"⟩]
      else .ok (some c)
  | some v => .error [⟨["content"], "Expected string, received " ++ jsonTypeName v⟩]

/-- The whole `noteSchema.safeParse`: a non-object payload fails at the top
level; on an object both fields are checked and their issues collected, as zod
does. -/
def safeParse (j : Json) : Except (List Issue) ParsedNote :=
  match j with
  | .obj fields =>
      match parseTitle (lookupField fields "title"),
            parseContent (lookupField fields "content") with
      | .ok t, .ok c => .ok ⟨t, c⟩
      | .error e1, .ok _ => .error e1
      | .ok _, .error e2 => .error e2
      | .error e1, .error e2 => .error (e1 ++ e2)
  | v => .error [⟨[], "Expected object, received " ++ jsonTypeName v⟩]

/-- Issues of a payload, `[]` when it parses. -/
def issuesOf (j : Json) : List Issue :=
  match safeParse j with
  | .ok _ => []
  | .error l => l

/-- Response bodies the pipeline can produce. -/
inductive RespBody where
  | errorMsg (error : String)
  | errorDetails (error : String) (details : List Issue)
  | errorDev (error : String) (details : String)
  | success
  | note (n : Note)
  | notes (ns : List Note)
deriving DecidableEq, Repr

/-- An HTTP response: status code plus JSON body. -/
structure Response where
  status : Nat
  body : RespBody
deriving DecidableEq, Repr

/-- The error field of a response body, when it has one. -/
def respError : RespBody → Option String
  | .errorMsg e => some e
  | .errorDetails e _ => some e
  | .errorDev e _ => some e
  | _ => none

/-- The array of notes in a response body, `[]` for non-array bodies. -/
def bodyNotes : RespBody → List Note
  | .notes ns => ns
  | _ => []

/-- An exception object as seen by the central error handler. -/
structure ErrObj where
  status : Option Nat
  message : String
  code : Option String
deriving DecidableEq, Repr

/-- Central error handler (server.js lines 235-246):
`status = err.status || 500`; outside development the body is the generic
`Internal Server Error`; in development it is `err.message || "Internal Server
Error"` together with `details: err.code || err.message`. -/
def errorHandler (err : ErrObj) (nodeEnv : String) : Response :=
  let status : Nat :=
    match err.status with
    | some s => if s = 0 then 500 else s
    | none => 500
  let isDev := nodeEnv = "development"
  let message :=
    if isDev then (if err.message = "" then "Internal Server Error" else err.message)
    else "Internal Server Error"
  if isDev then
    ⟨status, .errorDev message
      (match err.code with
       | some c => if c = "" then err.message else c
       | none => err.message)⟩
  else ⟨status, .errorMsg message⟩

/-- Is `pat` a leading part of the character list? Returns the remainder. -/
def dropPrefixChars : List Char → List Char → Option (List Char)
  | [], s => some s
  | _ :: _, [] => none
  | p :: ps, c :: cs => if p = c then dropPrefixChars ps cs else none

/-- Remove the first occurrence of `pat` anywhere in the list, as the
JavaScript `String.replace(pat, "")` with a string pattern does. -/
def removeFirstOcc (pat : List Char) : List Char → List Char
  | [] => []
  | c :: cs =>
      match dropPrefixChars pat (c :: cs) with
      | some rest => rest
      | none => c :: removeFirstOcc pat cs

/-- JavaScript `s.replace(pat, "")` for a string pattern: first occurrence
only. -/
def replaceFirst (s pat : String) : String :=
  ⟨removeFirstOcc pat.data s.data⟩

/-- Token extraction of `authenticateUser` (server.js line 147):
`req.headers.authorization?.replace("Bearer ", "")`, with the empty string
being falsy and hence a missing token. -/
def extractToken (authHeader : Option String) : Option String :=
  match authHeader with
  | none => none
  | some h =>
      let t := replaceFirst h "Bearer "
      if t = "" then none else some t

/-- Outcome of `supabase.auth.getUser(token)`: a user, a rejection (an error
or an absent user in the reply), or a thrown exception. -/
inductive ProviderResult where
  | ok (userId : String)
  | rejected
  | thrown (e : ErrObj)

/-- The `authenticateUser` middleware composed with a route handler
(server.js lines 145-158): missing token gives 401 `Missing token`, a rejected
token 401 `Invalid token`, a thrown provider error goes to the central
handler, and otherwise the handler runs with the resolved user id. -/
def runAuthed (nodeEnv : String) (authHeader : Option String)
    (provider : String → ProviderResult)
    (handler : String → Response × List Note) (notes : List Note) :
    Response × List Note :=
  match extractToken authHeader with
  | none => (⟨401, .errorMsg "Missing token"⟩, notes)
  | some tok =>
      match provider tok with
      | .rejected => (⟨401, .errorMsg "Invalid token"⟩, notes)
      | .thrown e => (errorHandler e nodeEnv, notes)
      | .ok uid => handler uid

/-- Prisma `note.findUnique({ where: { id } })` over the list store: `id` is
the unique key, so the first (only) match. -/
def findUnique (notes : List Note) (nid : Int) : Option Note :=
  notes.find? (fun n => n.id == nid)

/-- Prisma `note.update({ where: { id }, data })`: rewrite the unique row
with that id, embedded as a first-match rewrite. -/
def updateById (nid : Int) (f : Note → Note) : List Note → List Note
  | [] => []
  | n :: rest =>
      if n.id = nid then f n :: rest else n :: updateById nid f rest

/-- DELETE /notes/:id handler body (server.js lines 196-209), after
authentication resolved `userId`: validate the id, look the note up, compare
owners as strings, then set `deletedAt` to now.  There is no check that the
note is still active. -/
def deleteNote (notes : List Note) (userId : String) (idParam : Option Int)
    (now : Int) : Response × List Note :=
  match idParam with
  | none => (⟨400, .errorMsg "Invalid note id"⟩, notes)
  | some nid =>
      if nid ≤ 0 then (⟨400, .errorMsg "Invalid note id"⟩, notes)
      else
        match findUnique notes nid with
        | none => (⟨403, .errorMsg "Forbidden"⟩, notes)
        | some note =>
            if note.userId ≠ userId then (⟨403, .errorMsg "Forbidden"⟩, notes)
            else
              (⟨200, .success⟩,
                updateById nid (fun m => { m with deletedAt := some now }) notes)

/-- The row rewrite of the update endpoint: prisma `data: { title, content }`
overwrites `title` always and `content` only when the parsed body carried one
(an `undefined` field is left unchanged by prisma). -/
def upd (pd : ParsedNote) (m : Note) : Note :=
  { m with
    title := pd.title
    content := match pd.content with
      | some c => some c
      | none => m.content }

/-- PUT /notes/:id handler body (server.js lines 212-232), after
authentication resolved `userId`: validate the id, run `safeParse`, reject a
falsy title, look the note up, compare owners, reject a soft-deleted note,
then overwrite title/content. -/
def updateNote (notes : List Note) (userId : String) (idParam : Option Int)
    (body : Json) : Response × List Note :=
  match idParam with
  | none => (⟨400, .errorMsg "Invalid note id"⟩, notes)
  | some nid =>
      if nid ≤ 0 then (⟨400, .errorMsg "Invalid note id"⟩, notes)
      else
        match safeParse body with
        | .error issues => (⟨400, .errorDetails "Invalid input" issues⟩, notes)
        | .ok pd =>
            if pd.title = "" then (⟨400, .errorMsg "Title required"⟩, notes)
            else
              match findUnique notes nid with
              | none => (⟨403, .errorMsg "Forbidden"⟩, notes)
              | some note =>
                  if note.userId ≠ userId then (⟨403, .errorMsg "Forbidden"⟩, notes)
                  else if note.deletedAt ≠ none then
                    (⟨400, .errorMsg "Cannot modify deleted note"⟩, notes)
                  else
                    (⟨200, .note (upd pd note)⟩, updateById nid (upd pd) notes)

/-- POST /notes handler body (server.js lines 163-175), after authentication:
validate, then create a note owned by the caller with a fresh id, creation
time now and a null `deletedAt`. -/
def createNote (notes : List Note) (userId : String) (nextId : Int) (now : Int)
    (body : Json) : Response × List Note :=
  match safeParse body with
  | .error issues => (⟨400, .errorDetails "Invalid input" issues⟩, notes)
  | .ok pd =>
      let n : Note := ⟨nextId, pd.title, pd.content, userId, now, none⟩
      (⟨200, .note n⟩, notes ++ [n])

/-- Digits of the longest leading digit run, `none` when there is none
(`parseInt` returns `NaN` then). -/
def parseDigits (cs : List Char) : Option Nat :=
  let ds := cs.takeWhile Char.isDigit
  if ds = [] then none
  else some (ds.foldl (fun a c => a * 10 + (c.toNat - 48)) 0)

/-- JavaScript `Number.parseInt(s, 10)`: skip leading whitespace, an optional
sign, then the longest digit run; `none` is `NaN`. -/
def parseIntJS (s : String) : Option Int :=
  let cs := s.data.dropWhile fun c => c == ' ' || c == '\t' || c == '\n' || c == '\r'
  match cs with
  | '-' :: rest => (parseDigits rest).map fun n => -(n : Int)
  | '+' :: rest => (parseDigits rest).map fun n => (n : Int)
  | _ => (parseDigits cs).map fun n => (n : Int)

/-- JavaScript `x || d` for a parsed integer `x`: `NaN` and `0` are falsy. -/
def jsOr (v : Option Int) (d : Int) : Int :=
  match v with
  | none => d
  | some n => if n = 0 then d else n

/-- Effective limit of the list endpoint (server.js line 182):
`Math.min(100, Number.parseInt(req.query.limit, 10) || 10)`. -/
def effLimit (limitParam : Option String) : Int :=
  min 100 (jsOr (limitParam.bind parseIntJS) 10)

/-- Effective offset of the list endpoint (server.js line 183):
`Math.max(0, Number.parseInt(req.query.offset, 10) || 0)`. -/
def effOffset (offsetParam : Option String) : Int :=
  max 0 (jsOr (offsetParam.bind parseIntJS) 0)

/-- Descending `createdAt` order, the `orderBy: { createdAt: "desc" }` of the
list query. -/
def noteLe (a b : Note) : Prop := b.createdAt ≤ a.createdAt

instance : DecidableRel noteLe :=
  fun a b => inferInstanceAs (Decidable (b.createdAt ≤ a.createdAt))

instance : IsTotal Note noteLe := ⟨fun a b => le_total b.createdAt a.createdAt⟩

instance : IsTrans Note noteLe := ⟨fun _ _ _ h1 h2 => le_trans h2 h1⟩

/-- The store's ordered read: sort by `createdAt` descending. -/
def sortByCreatedAtDesc (ns : List Note) : List Note :=
  ns.insertionSort noteLe

/-- Prisma `take`: a non-negative count takes from the front, a negative count
takes that many from the end of the result set. -/
def prismaTake (t : Int) (l : List Note) : List Note :=
  if 0 ≤ t then l.take t.toNat else l.drop (l.length - (-t).toNat)

/-- GET /notes handler body (server.js lines 178-193), after authentication:
clamp the pagination parameters, then query the caller's active notes ordered
by `createdAt` descending, skipping `offset` and taking `limit`. -/
def listNotes (notes : List Note) (userId : String)
    (limitParam offsetParam : Option String) : Response :=
  let limit := effLimit limitParam
  let offset := effOffset offsetParam
  let active := notes.filter fun n => n.userId == userId && n.deletedAt == none
  ⟨200, .notes (prismaTake limit ((sortByCreatedAtDesc active).drop offset.toNat))⟩

/-- The complete POST /notes route: `authenticateUser` then the create
handler. -/
def handleCreate (nodeEnv : String) (authHeader : Option String)
    (provider : String → ProviderResult) (notes : List Note) (nextId : Int)
    (now : Int) (body : Json) : Response × List Note :=
  runAuthed nodeEnv authHeader provider
    (fun uid => createNote notes uid nextId now body) notes

/-- The complete GET /notes route: `authenticateUser` then the list
handler. -/
def handleList (nodeEnv : String) (authHeader : Option String)
    (provider : String → ProviderResult) (notes : List Note)
    (limitParam offsetParam : Option String) : Response × List Note :=
  runAuthed nodeEnv authHeader provider
    (fun uid => (listNotes notes uid limitParam offsetParam, notes)) notes

/-- The complete DELETE /notes/:id route: `authenticateUser` then the delete
handler. -/
def handleDelete (nodeEnv : String) (authHeader : Option String)
    (provider : String → ProviderResult) (notes : List Note)
    (idParam : Option Int) (now : Int) : Response × List Note :=
  runAuthed nodeEnv authHeader provider
    (fun uid => deleteNote notes uid idParam now) notes

/-- The complete PUT /notes/:id route: `authenticateUser` then the update
handler. -/
def handlePut (nodeEnv : String) (authHeader : Option String)
    (provider : String → ProviderResult) (notes : List Note)
    (idParam : Option Int) (body : Json) : Response × List Note :=
  runAuthed nodeEnv authHeader provider
    (fun uid => updateNote notes uid idParam body) notes

/-- A provider that accepts every token as the user `alice`; used for the
concrete instances below. -/
def pAlice : String → ProviderResult := fun _ => .ok "alice"

/-- A note of alice that is already soft-deleted. -/
def noteDel : Note := ⟨1, "t", none, "alice", 0, some 5⟩

/-- An active note of alice. -/
def noteAct : Note := ⟨1, "old", some "oc", "alice", 7, none⟩

/-- Payload shapes claim C6 says pass validation, written from the claim's
words (not from the code): an object whose `title` is a string of length 1 to
200 and whose `content` is absent or a string of length at most 5000. -/
def spec_validBody (j : Json) : Prop :=
  ∃ fields, j = Json.obj fields ∧
    (∃ t, lookupField fields "title" = some (Json.str t) ∧
      1 ≤ t.length ∧ t.length ≤ 200) ∧
    (lookupField fields "content" = none ∨
      ∃ c, lookupField fields "content" = some (Json.str c) ∧ c.length ≤ 5000)

/-! Helper lemmas about the embedded operations. -/

/-- When the token extracts and the provider resolves a user, the middleware
hands control to the route handler. -/
theorem runAuthed_ok (env : String) (h : Option String)
    (p : String → ProviderResult) (k : String → Response × List Note)
    (notes : List Note) (tok uid : String)
    (htok : extractToken h = some tok) (hp : p tok = .ok uid) :
    runAuthed env h p k notes = k uid := by
  simp only [runAuthed, htok, hp]

/-- A lookup that misses leaves the first-match rewrite inert. -/
theorem updateById_of_findUnique_none (nid : Int) (f : Note → Note) :
    ∀ l : List Note, findUnique l nid = none → updateById nid f l = l := by
  intro l
  induction l with
  | nil => intro _; rfl
  | cons a rest ih =>
      intro hfail
      by_cases hb : a.id = nid
      · exact absurd hfail (by simp [findUnique, List.find?_cons_of_pos, hb])
      · have hrest : findUnique rest nid = none := by
          simpa [findUnique, List.find?_cons_of_neg, hb] using hfail
        simp [updateById, hb, ih hrest]

/-- Elements other than the found row survive the first-match rewrite
unchanged. -/
theorem mem_updateById_of_ne (nid : Int) (f : Note → Note) :
    ∀ (l : List Note) (m n : Note), m ∈ l → findUnique l nid = some n →
      m ≠ n → m ∈ updateById nid f l := by
  intro l
  induction l with
  | nil => intro m n hm; cases hm
  | cons a rest ih =>
      intro m n hm hfind hne
      by_cases hb : a.id = nid
      · have ha : n = a := by
          have := hfind
          simp [findUnique, List.find?_cons_of_pos, hb] at this
          exact this.symm
        rcases List.mem_cons.mp hm with rfl | hm2
        · exact absurd ha.symm hne
        · simp [updateById, hb, List.mem_cons, hm2]
      · have hrest : findUnique rest nid = some n := by
          simpa [findUnique, List.find?_cons_of_neg, hb] using hfind
        rcases List.mem_cons.mp hm with rfl | hm2
        · simp [updateById, hb]
        · simp only [updateById]
          rw [if_neg hb]
          exact List.mem_cons.mpr (Or.inr (ih m n hm2 hrest hne))

/-- Elements whose id differs from the rewritten one survive unchanged. -/
theorem mem_updateById_of_id_ne (nid : Int) (f : Note → Note) :
    ∀ (l : List Note) (m : Note), m ∈ l → m.id ≠ nid →
      m ∈ updateById nid f l := by
  intro l
  induction l with
  | nil => intro m hm; cases hm
  | cons a rest ih =>
      intro m hm hmid
      by_cases hb : a.id = nid
      · rcases List.mem_cons.mp hm with rfl | hm2
        · exact absurd hb hmid
        · simp [updateById, hb, List.mem_cons, hm2]
      · rcases List.mem_cons.mp hm with rfl | hm2
        · simp [updateById, hb]
        · simp only [updateById]
          rw [if_neg hb]
          exact List.mem_cons.mpr (Or.inr (ih m hm2 hmid))

/-- The rewritten image of the found row is in the rewritten store. -/
theorem rewritten_mem_updateById (nid : Int) (f : Note → Note) :
    ∀ (l : List Note) (n : Note), findUnique l nid = some n →
      f n ∈ updateById nid f l := by
  intro l
  induction l with
  | nil => intro n hfind; simp [findUnique] at hfind
  | cons a rest ih =>
      intro n hfind
      by_cases hb : a.id = nid
      · have ha : a = n := by
          simpa [findUnique, List.find?_cons_of_pos, hb] using hfind
        subst ha
        simp [updateById, hb]
      · have hrest : findUnique rest nid = some n := by
          simpa [findUnique, List.find?_cons_of_neg, hb] using hfind
        simp only [updateById]
        rw [if_neg hb]
        exact List.mem_cons.mpr (Or.inr (ih n hrest))

/-- Characterisation of a successful title parse: the field is a string of
length 1 to 200. -/
theorem parseTitle_ok_iff (o : Option Json) (t : String) :
    parseTitle o = .ok t ↔
      o = some (Json.str t) ∧ 1 ≤ t.length ∧ t.length ≤ 200 := by
  cases o with
  | none => simp [parseTitle]
  | some v =>
      cases v with
      | str s =>
          simp only [parseTitle]
          split_ifs with h1 h2
          · constructor
            · intro hc; cases hc
            · rintro ⟨heq, hlen, -⟩
              cases heq
              omega
          · constructor
            · intro hc; cases hc
            · rintro ⟨heq, -, hlen⟩
              cases heq
              omega
          · constructor
            · intro hc
              cases hc
              exact ⟨rfl, by omega, by omega⟩
            · rintro ⟨heq, -, -⟩
              cases heq
              rfl
      | null => simp [parseTitle]
      | bool b => simp [parseTitle]
      | num n => simp [parseTitle]
      | arr xs => simp [parseTitle]
      | obj fs => simp [parseTitle]

/-- Characterisation of a successful content parse: the field is absent or a
string of length at most 5000. -/
theorem parseContent_ok_iff (o : Option Json) (c : Option String) :
    parseContent o = .ok c ↔
      (o = none ∧ c = none) ∨
      (∃ s, o = some (Json.str s) ∧ c = some s ∧ s.length ≤ 5000) := by
  cases o with
  | none => simp [parseContent, eq_comm]
  | some v =>
      cases v with
      | str s =>
          simp only [parseContent]
          split_ifs with h1
          · constructor
            · intro hc; cases hc
            · rintro (⟨hc, -⟩ | ⟨s2, heq, -, hlen⟩)
              · cases hc
              · cases heq
                omega
          · constructor
            · intro hc
              cases hc
              exact Or.inr ⟨s, rfl, rfl, by omega⟩
            · rintro (⟨hc, -⟩ | ⟨s2, heq, hcc, -⟩)
              · cases hc
              · cases heq
                rw [hcc]
      | null => simp [parseContent]
      | bool b => simp [parseContent]
      | num n => simp [parseContent]
      | arr xs => simp [parseContent]
      | obj fs => simp [parseContent]

/-- Characterisation of a successful `safeParse`. -/
theorem safeParse_ok_iff (j : Json) (pd : ParsedNote) :
    safeParse j = .ok pd ↔
      ∃ fields, j = Json.obj fields ∧
        parseTitle (lookupField fields "title") = .ok pd.title ∧
        parseContent (lookupField fields "content") = .ok pd.content := by
  obtain ⟨pt, pc⟩ := pd
  cases j with
  | obj fields =>
      simp only [safeParse]
      cases hT : parseTitle (lookupField fields "title") with
      | error e1 =>
          cases hC : parseContent (lookupField fields "content") with
          | error e2 => simp [hT, hC]
          | ok c => simp [hT, hC]
      | ok t =>
          cases hC : parseContent (lookupField fields "content") with
          | error e2 => simp [hT, hC]
          | ok c =>
              simp only [Json.obj.injEq, exists_eq_left', hT, hC]
              constructor
              · intro hc
                cases hc
                exact ⟨rfl, rfl⟩
              · rintro ⟨h1, h2⟩
                cases h1
                cases h2
                rfl
  | null => simp [safeParse]
  | bool b => simp [safeParse]
  | num n => simp [safeParse]
  | str s => simp [safeParse]
  | arr xs => simp [safeParse]

/-- A title accepted by the schema is non-empty, so the update path's extra
`!title` gate never fires after a successful parse. -/
theorem safeParse_ok_title_ne (j : Json) (pd : ParsedNote)
    (h : safeParse j = .ok pd) : pd.title ≠ "" := by
  obtain ⟨fields, -, ht, -⟩ := (safeParse_ok_iff j pd).mp h
  obtain ⟨-, hlen, -⟩ := (parseTitle_ok_iff _ _).mp ht
  intro he
  rw [he] at hlen
  simp at hlen

/-- Forbidden path of the delete handler: absent note or owner mismatch. -/
theorem deleteNote_forbidden (notes : List Note) (uid : String) (nid : Int)
    (now : Int) (hpos : 0 < nid)
    (hmiss : findUnique notes nid = none ∨
      ∃ n, findUnique notes nid = some n ∧ n.userId ≠ uid) :
    deleteNote notes uid (some nid) now = (⟨403, .errorMsg "Forbidden"⟩, notes) := by
  simp only [deleteNote]
  rw [if_neg (by omega : ¬ nid ≤ 0)]
  rcases hmiss with hn | ⟨n, hf, hne⟩
  · simp only [hn]
  · simp only [hf]
    rw [if_pos hne]

/-- Forbidden path of the update handler, once the body has parsed. -/
theorem updateNote_forbidden (notes : List Note) (uid : String) (nid : Int)
    (body : Json) (pd : ParsedNote) (hpos : 0 < nid)
    (hparse : safeParse body = .ok pd)
    (hmiss : findUnique notes nid = none ∨
      ∃ n, findUnique notes nid = some n ∧ n.userId ≠ uid) :
    updateNote notes uid (some nid) body = (⟨403, .errorMsg "Forbidden"⟩, notes) := by
  simp only [updateNote, hparse]
  rw [if_neg (by omega : ¬ nid ≤ 0),
     if_neg (fun he => safeParse_ok_title_ne body pd hparse he)]
  rcases hmiss with hn | ⟨n, hf, hne⟩
  · simp only [hn]
  · simp only [hf]
    rw [if_pos hne]

/-- Already-soft-deleted path of the update handler. -/
theorem updateNote_deleted (notes : List Note) (uid : String) (nid : Int)
    (body : Json) (pd : ParsedNote) (n : Note) (hpos : 0 < nid)
    (hparse : safeParse body = .ok pd)
    (hfind : findUnique notes nid = some n) (hown : n.userId = uid)
    (hdel : n.deletedAt ≠ none) :
    updateNote notes uid (some nid) body
      = (⟨400, .errorMsg "Cannot modify deleted note"⟩, notes) := by
  simp only [updateNote, hparse, hfind]
  rw [if_neg (by omega : ¬ nid ≤ 0),
     if_neg (fun he => safeParse_ok_title_ne body pd hparse he),
     if_neg (fun hne => hne hown), if_pos hdel]

/-- Successful path of the update handler. -/
theorem updateNote_success (notes : List Note) (uid : String) (nid : Int)
    (body : Json) (pd : ParsedNote) (n : Note) (hpos : 0 < nid)
    (hparse : safeParse body = .ok pd)
    (hfind : findUnique notes nid = some n) (hown : n.userId = uid)
    (hact : n.deletedAt = none) :
    updateNote notes uid (some nid) body
      = (⟨200, .note (upd pd n)⟩, updateById nid (upd pd) notes) := by
  simp only [updateNote, hparse, hfind]
  rw [if_neg (by omega : ¬ nid ≤ 0),
     if_neg (fun he => safeParse_ok_title_ne body pd hparse he),
     if_neg (fun hne => hne hown), if_neg (fun hd => hd hact)]

/-- Successful path of the delete handler: no deleted-state check occurs. -/
theorem deleteNote_success (notes : List Note) (uid : String) (nid : Int)
    (now : Int) (n : Note) (hpos : 0 < nid)
    (hfind : findUnique notes nid = some n) (hown : n.userId = uid) :
    deleteNote notes uid (some nid) now
      = (⟨200, .success⟩,
          updateById nid (fun m => { m with deletedAt := some now }) notes) := by
  simp only [deleteNote, hfind]
  rw [if_neg (by omega : ¬ nid ≤ 0), if_neg (fun hne => hne hown)]

/-- The update handler never touches a soft-deleted row: whatever the
request, a stored note with non-null `deletedAt` is still in the store,
unchanged, afterwards. -/
theorem updateNote_preserves_deleted (notes : List Note) (uid : String)
    (idp : Option Int) (body : Json) (m : Note)
    (hm : m ∈ notes) (hdel : m.deletedAt ≠ none) :
    m ∈ (updateNote notes uid idp body).2 := by
  cases idp with
  | none => exact hm
  | some nid =>
      simp only [updateNote]
      split
      · exact hm
      · cases hparse : safeParse body with
        | error issues => simpa [hparse] using hm
        | ok pd =>
            simp only [hparse]
            split
            · exact hm
            · cases hfind : findUnique notes nid with
              | none => simpa [hfind] using hm
              | some n =>
                  simp only [hfind]
                  split
                  · exact hm
                  · split
                    · exact hm
                    · next hownNe hdelNe =>
                        have hact : n.deletedAt = none := by
                          by_contra hc
                          exact hdelNe hc
                        exact mem_updateById_of_ne nid (upd pd) notes m n hm
                          hfind (fun he => hdel (he ▸ hact))

/-- Lift of the preservation fact to the full route. -/
theorem handlePut_preserves_deleted (env : String) (h : Option String)
    (p : String → ProviderResult) (notes : List Note) (idp : Option Int)
    (body : Json) (m : Note) (hm : m ∈ notes) (hdel : m.deletedAt ≠ none) :
    m ∈ (handlePut env h p notes idp body).2 := by
  simp only [handlePut, runAuthed]
  split
  · exact hm
  · split
    · exact hm
    · exact hm
    · exact updateNote_preserves_deleted notes _ idp body m hm hdel

/-- C1 counterexample: an authenticated update with the valid positive id 1
hitting an empty store (the note does not exist) answers 400 `Invalid input`
— the body fails validation before the ownership gate — not the 403
`Forbidden` the claim requires for every such request. -/
theorem C1_cex_update_invalid_body_absent_note :
    (handlePut "production" (some "Bearer t") pAlice [] (some 1) (Json.obj [])).1
      ≠ ⟨403, .errorMsg "Forbidden"⟩ := by decide

/-- C1 (amended): for every delete request, and every update request whose
body passes validation, by an authenticated caller with a valid
positive-integer id, if the note does not exist or its stored userId differs
(under string comparison) from the caller's id, the response is 403 with body
error `Forbidden`, and the response is identical in the absent-note and
wrong-owner cases, so the caller cannot distinguish which occurred. -/
theorem C1_forbidden_absent_note_indistinguishable (env : String)
    (h : Option String) (p : String → ProviderResult) (tok uid : String)
    (notes : List Note) (nid : Int) (now : Int) (body : Json)
    (htok : extractToken h = some tok) (hp : p tok = .ok uid)
    (hpos : 0 < nid)
    (hmiss : findUnique notes nid = none ∨
      ∃ n, findUnique notes nid = some n ∧ n.userId ≠ uid) :
    handleDelete env h p notes (some nid) now
        = (⟨403, .errorMsg "Forbidden"⟩, notes)
    ∧ ∀ pd, safeParse body = .ok pd →
        handlePut env h p notes (some nid) body
          = (⟨403, .errorMsg "Forbidden"⟩, notes) := by
  constructor
  · rw [handleDelete, runAuthed_ok env h p _ notes tok uid htok hp]
    exact deleteNote_forbidden notes uid nid now hpos hmiss
  · intro pd hparse
    rw [handlePut, runAuthed_ok env h p _ notes tok uid htok hp]
    exact updateNote_forbidden notes uid nid body pd hpos hparse hmiss

/-- C1 witness: the amended theorem applied at a concrete store without the
note, for both the delete and the update route. -/
theorem C1_forbidden_absent_note_indistinguishable_witness :
    handleDelete "production" (some "Bearer t") pAlice [] (some 1) 0
        = (⟨403, .errorMsg "Forbidden"⟩, [])
    ∧ handlePut "production" (some "Bearer t") pAlice [] (some 1)
        (Json.obj [("title", Json.str "a")])
        = (⟨403, .errorMsg "Forbidden"⟩, []) := by
  have h := C1_forbidden_absent_note_indistinguishable "production"
    (some "Bearer t") pAlice "t" "alice" [] 1 0
    (Json.obj [("title", Json.str "a")]) (by decide) rfl (by decide)
    (Or.inl rfl)
  exact ⟨h.1, h.2 ⟨"a", none⟩ (by decide)⟩

/-- C2 counterexample: an update by the owning caller on the soft-deleted
note 1 whose body is invalid answers 400 `Invalid input` with details, not
the 400 `Cannot modify deleted note` body the claim requires for every such
request. -/
theorem C2_cex_update_invalid_body_deleted_note :
    (handlePut "production" (some "Bearer t") pAlice [noteDel] (some 1)
        (Json.obj [])).1.body
      ≠ .errorMsg "Cannot modify deleted note" := by decide

/-- C2 (amended): for every update request by the owning, authenticated
caller on a note whose `deletedAt` is non-null, if the body passes
validation the response is 400 with body error `Cannot modify deleted note`
and the store is left unchanged; moreover, on any update request whatsoever a
stored note with non-null `deletedAt` survives untouched — such a note is
never further updated. -/
theorem C2_deleted_note_immutable (env : String) (h : Option String)
    (p : String → ProviderResult) (tok uid : String) (notes : List Note)
    (nid : Int) (body : Json) (n : Note)
    (htok : extractToken h = some tok) (hp : p tok = .ok uid)
    (hpos : 0 < nid) (hfind : findUnique notes nid = some n)
    (hown : n.userId = uid) (hdel : n.deletedAt ≠ none) :
    (∀ pd, safeParse body = .ok pd →
      handlePut env h p notes (some nid) body
        = (⟨400, .errorMsg "Cannot modify deleted note"⟩, notes))
    ∧ ∀ (h2 : Option String) (p2 : String → ProviderResult)
        (idp : Option Int) (body2 : Json) (m : Note),
        m ∈ notes → m.deletedAt ≠ none →
        m ∈ (handlePut env h2 p2 notes idp body2).2 := by
  constructor
  · intro pd hparse
    rw [handlePut, runAuthed_ok env h p _ notes tok uid htok hp]
    exact updateNote_deleted notes uid nid body pd n hpos hparse hfind hown hdel
  · intro h2 p2 idp body2 m hm hdel2
    exact handlePut_preserves_deleted env h2 p2 notes idp body2 m hm hdel2

/-- C2 witness: the amended theorem applied to alice updating her own
soft-deleted note with a valid body. -/
theorem C2_deleted_note_immutable_witness :
    handlePut "production" (some "Bearer t") pAlice [noteDel] (some 1)
        (Json.obj [("title", Json.str "x")])
      = (⟨400, .errorMsg "Cannot modify deleted note"⟩, [noteDel])
    ∧ noteDel ∈ (handlePut "production" (some "Bearer t") pAlice [noteDel]
        (some 1) (Json.obj [("title", Json.str "x")])).2 := by
  have h := C2_deleted_note_immutable "production" (some "Bearer t") pAlice
    "t" "alice" [noteDel] 1 (Json.obj [("title", Json.str "x")]) noteDel
    (by decide) rfl (by decide) (by decide) rfl (by decide)
  exact ⟨h.1 ⟨"x", none⟩ (by decide),
    h.2 (some "Bearer t") pAlice (some 1) (Json.obj [("title", Json.str "x")])
      noteDel (List.mem_singleton.mpr rfl) (by decide)⟩

/-- C3 (confirmed): on the update route the `authenticateUser` middleware
runs before the handler that parses the id and validates the body, so every
update request whose bearer token is missing or rejected by the provider is
answered 401, whatever the id parameter and body are — including invalid
ones. -/
theorem C3_update_authenticates_first (env : String) (h : Option String)
    (p : String → ProviderResult) (notes : List Note) (idParam : Option Int)
    (body : Json)
    (hauth : extractToken h = none ∨
      ∃ tok, extractToken h = some tok ∧ p tok = .rejected) :
    (handlePut env h p notes idParam body).1.status = 401 := by
  rcases hauth with hnone | ⟨tok, htok, hrej⟩
  · simp [handlePut, runAuthed, hnone]
  · simp [handlePut, runAuthed, htok, hrej]

/-- C3 witness: a request with no Authorization header, an invalid id and an
invalid body is still answered 401. -/
theorem C3_update_authenticates_first_witness :
    (handlePut "production" none pAlice [] none (Json.obj [])).1.status
      = 401 :=
  C3_update_authenticates_first "production" none pAlice [] none
    (Json.obj []) (Or.inl rfl)

/-- C4 (confirmed): the effective limit is at most 100 and is the default 10
whenever the limit parameter is absent or does not parse to an integer; the
effective offset is at least 0, is the default 0 whenever the offset
parameter is absent or does not parse, and is 0 for a negative offset.  These
are exactly the values the list handler feeds into its query as `take` and
`skip`. -/
theorem C4_pagination_clamping (limitParam offsetParam : Option String) :
    effLimit limitParam ≤ 100
    ∧ (limitParam.bind parseIntJS = none → effLimit limitParam = 10)
    ∧ 0 ≤ effOffset offsetParam
    ∧ (offsetParam.bind parseIntJS = none → effOffset offsetParam = 0)
    ∧ (∀ v, offsetParam.bind parseIntJS = some v → v < 0 →
        effOffset offsetParam = 0) := by
  refine ⟨min_le_left _ _, ?_, le_max_left _ _, ?_, ?_⟩
  · intro hnone
    simp only [effLimit, jsOr, hnone]
    decide
  · intro hnone
    simp only [effOffset, jsOr, hnone]
    decide
  · intro v hv hneg
    simp only [effOffset, jsOr, hv]
    rw [if_neg (by omega : ¬ v = 0)]
    exact max_eq_left (by omega)

/-- Both branches of prisma's `take` produce a sublist of the result set. -/
theorem prismaTake_sublist (t : Int) (l : List Note) :
    List.Sublist (prismaTake t l) l := by
  unfold prismaTake
  split
  · exact List.take_sublist _ _
  · exact List.drop_sublist _ _

/-- C5 (confirmed): an authenticated list request answers 200 with an array
in which every note belongs to the caller and has a null `deletedAt`, and
which is ordered by `createdAt` descending. -/
theorem C5_list_scoped_active_sorted (env : String) (h : Option String)
    (p : String → ProviderResult) (tok uid : String) (notes : List Note)
    (limitParam offsetParam : Option String)
    (htok : extractToken h = some tok) (hp : p tok = .ok uid) :
    handleList env h p notes limitParam offsetParam
        = (listNotes notes uid limitParam offsetParam, notes)
    ∧ (listNotes notes uid limitParam offsetParam).status = 200
    ∧ (∀ n ∈ bodyNotes (listNotes notes uid limitParam offsetParam).body,
        n.userId = uid ∧ n.deletedAt = none)
    ∧ List.Pairwise (fun a b => b.createdAt ≤ a.createdAt)
        (bodyNotes (listNotes notes uid limitParam offsetParam).body) := by
  have hsub : List.Sublist
      (bodyNotes (listNotes notes uid limitParam offsetParam).body)
      (sortByCreatedAtDesc
        (notes.filter fun n => n.userId == uid && n.deletedAt == none)) :=
    List.Sublist.trans (prismaTake_sublist _ _) (List.drop_sublist _ _)
  refine ⟨by rw [handleList, runAuthed_ok env h p _ notes tok uid htok hp],
    rfl, ?_, ?_⟩
  · intro n hn
    have h1 : n ∈ sortByCreatedAtDesc
        (notes.filter fun n => n.userId == uid && n.deletedAt == none) :=
      hsub.subset hn
    have h2 : n ∈ notes.filter fun n => n.userId == uid && n.deletedAt == none := by
      simpa [sortByCreatedAtDesc, List.mem_insertionSort] using h1
    have h3 := List.mem_filter.mp h2
    simp only [Bool.and_eq_true, beq_iff_eq] at h3
    exact ⟨h3.2.1, h3.2.2⟩
  · have hs : List.Sorted noteLe (sortByCreatedAtDesc
        (notes.filter fun n => n.userId == uid && n.deletedAt == none)) :=
      List.sorted_insertionSort noteLe _
    exact List.Pairwise.sublist hsub hs

/-- Issues of a failed title parse: a single `title`-tagged issue with a
non-empty message. -/
theorem parseTitle_error_spec (o : Option Json) (e : List Issue)
    (h : parseTitle o = .error e) :
    e ≠ [] ∧ ∀ i ∈ e, i.path = ["title"] ∧ i.message ≠ "" := by
  have hx : ∃ m, e = [⟨["title"], m⟩] ∧ m ≠ "" := by
    cases o with
    | none =>
        exact ⟨"Required", by simpa [parseTitle, eq_comm] using h, by decide⟩
    | some v =>
        cases v with
        | str s =>
            by_cases h1 : s.length < 1
            · refine ⟨"Title is required", ?_, by decide⟩
              simpa [parseTitle, h1, eq_comm] using h
            · by_cases h2 : 200 < s.length
              · refine ⟨"Title too long", ?_, by decide⟩
                simpa [parseTitle, h1, h2, eq_comm] using h
              · simp [parseTitle, h1, h2] at h
        | null =>
            exact ⟨"Expected string, received " ++ jsonTypeName Json.null,
              by simpa [parseTitle, eq_comm] using h, by decide⟩
        | bool b =>
            exact ⟨"Expected string, received " ++ jsonTypeName (Json.bool b),
              by simpa [parseTitle, eq_comm] using h,
              by simp only [jsonTypeName]; decide⟩
        | num m =>
            exact ⟨"Expected string, received " ++ jsonTypeName (Json.num m),
              by simpa [parseTitle, eq_comm] using h,
              by simp only [jsonTypeName]; decide⟩
        | arr xs =>
            exact ⟨"Expected string, received " ++ jsonTypeName (Json.arr xs),
              by simpa [parseTitle, eq_comm] using h,
              by simp only [jsonTypeName]; decide⟩
        | obj fs =>
            exact ⟨"Expected string, received " ++ jsonTypeName (Json.obj fs),
              by simpa [parseTitle, eq_comm] using h,
              by simp only [jsonTypeName]; decide⟩
  obtain ⟨m, rfl, hm⟩ := hx
  refine ⟨by simp, ?_⟩
  intro i hi
  rw [List.mem_singleton] at hi
  subst hi
  exact ⟨rfl, hm⟩

/-- Issues of a failed content parse: a single `content`-tagged issue with a
non-empty message. -/
theorem parseContent_error_spec (o : Option Json) (e : List Issue)
    (h : parseContent o = .error e) :
    e ≠ [] ∧ ∀ i ∈ e, i.path = ["content"] ∧ i.message ≠ "" := by
  have hx : ∃ m, e = [⟨["content"], m⟩] ∧ m ≠ "" := by
    cases o with
    | none => simp [parseContent] at h
    | some v =>
        cases v with
        | str s =>
            by_cases h1 : 5000 < s.length
            · refine ⟨"Content too long", ?_, by decide⟩
              simpa [parseContent, h1, eq_comm] using h
            · simp [parseContent, h1] at h
        | null =>
            exact ⟨"Expected string, received " ++ jsonTypeName Json.null,
              by simpa [parseContent, eq_comm] using h, by decide⟩
        | bool b =>
            exact ⟨"Expected string, received " ++ jsonTypeName (Json.bool b),
              by simpa [parseContent, eq_comm] using h,
              by simp only [jsonTypeName]; decide⟩
        | num m =>
            exact ⟨"Expected string, received " ++ jsonTypeName (Json.num m),
              by simpa [parseContent, eq_comm] using h,
              by simp only [jsonTypeName]; decide⟩
        | arr xs =>
            exact ⟨"Expected string, received " ++ jsonTypeName (Json.arr xs),
              by simpa [parseContent, eq_comm] using h,
              by simp only [jsonTypeName]; decide⟩
        | obj fs =>
            exact ⟨"Expected string, received " ++ jsonTypeName (Json.obj fs),
              by simpa [parseContent, eq_comm] using h,
              by simp only [jsonTypeName]; decide⟩
  obtain ⟨m, rfl, hm⟩ := hx
  refine ⟨by simp, ?_⟩
  intro i hi
  rw [List.mem_singleton] at hi
  subst hi
  exact ⟨rfl, hm⟩

/-- Issues of any failed parse: a non-empty list, every issue carrying a
non-empty message, and — for an object payload — tagged with the offending
field. -/
theorem safeParse_error_spec (j : Json) (issues : List Issue)
    (h : safeParse j = .error issues) :
    issues ≠ [] ∧ (∀ i ∈ issues, i.message ≠ "") ∧
      (∀ fields, j = Json.obj fields →
        ∀ i ∈ issues, i.path = ["title"] ∨ i.path = ["content"]) := by
  cases j with
  | obj fields =>
      simp only [safeParse] at h
      cases hT : parseTitle (lookupField fields "title") with
      | ok t =>
          cases hC : parseContent (lookupField fields "content") with
          | ok c => rw [hT, hC] at h; cases h
          | error e2 =>
              rw [hT, hC] at h
              obtain rfl : e2 = issues := by injection h
              obtain ⟨hne, hall⟩ := parseContent_error_spec _ _ hC
              refine ⟨hne, fun i hi => (hall i hi).2, ?_⟩
              intro fields2 heq i hi
              exact Or.inr (hall i hi).1
      | error e1 =>
          cases hC : parseContent (lookupField fields "content") with
          | ok c =>
              rw [hT, hC] at h
              obtain rfl : e1 = issues := by injection h
              obtain ⟨hne, hall⟩ := parseTitle_error_spec _ _ hT
              refine ⟨hne, fun i hi => (hall i hi).2, ?_⟩
              intro fields2 heq i hi
              exact Or.inl (hall i hi).1
          | error e2 =>
              rw [hT, hC] at h
              obtain rfl : e1 ++ e2 = issues := by injection h
              obtain ⟨hne1, hall1⟩ := parseTitle_error_spec _ _ hT
              obtain ⟨hne2, hall2⟩ := parseContent_error_spec _ _ hC
              refine ⟨by simp [hne1], ?_, ?_⟩
              · intro i hi
                rcases List.mem_append.mp hi with hi1 | hi2
                · exact (hall1 i hi1).2
                · exact (hall2 i hi2).2
              · intro fields2 heq i hi
                rcases List.mem_append.mp hi with hi1 | hi2
                · exact Or.inl (hall1 i hi1).1
                · exact Or.inr (hall2 i hi2).1
  | null =>
      simp only [safeParse] at h
      obtain rfl : _ = issues := by injection h
      exact ⟨by simp, by intro i hi; rw [List.mem_singleton] at hi; subst hi; simp only [jsonTypeName]; decide,
        by intro fields heq; cases heq⟩
  | bool b =>
      simp only [safeParse] at h
      obtain rfl : _ = issues := by injection h
      exact ⟨by simp, by intro i hi; rw [List.mem_singleton] at hi; subst hi; simp only [jsonTypeName]; decide,
        by intro fields heq; cases heq⟩
  | num m =>
      simp only [safeParse] at h
      obtain rfl : _ = issues := by injection h
      exact ⟨by simp, by intro i hi; rw [List.mem_singleton] at hi; subst hi; simp only [jsonTypeName]; decide,
        by intro fields heq; cases heq⟩
  | str s =>
      simp only [safeParse] at h
      obtain rfl : _ = issues := by injection h
      exact ⟨by simp, by intro i hi; rw [List.mem_singleton] at hi; subst hi; simp only [jsonTypeName]; decide,
        by intro fields heq; cases heq⟩
  | arr xs =>
      simp only [safeParse] at h
      obtain rfl : _ = issues := by injection h
      exact ⟨by simp, by intro i hi; rw [List.mem_singleton] at hi; subst hi; simp only [jsonTypeName]; decide,
        by intro fields heq; cases heq⟩

/-- An issue raised on the title field survives into the payload's combined
issue list. -/
theorem title_issue_mem (fields : List (String × Json)) (i1 : Issue)
    (e1 : List Issue)
    (hT : parseTitle (lookupField fields "title") = .error e1) (hi : i1 ∈ e1) :
    i1 ∈ issuesOf (Json.obj fields) := by
  have hs : safeParse (Json.obj fields) = .error e1
      ∨ ∃ e2, safeParse (Json.obj fields) = .error (e1 ++ e2) := by
    simp only [safeParse]
    cases hC : parseContent (lookupField fields "content") with
    | ok c => exact Or.inl (by rw [hT])
    | error e2 => exact Or.inr ⟨e2, by rw [hT]⟩
  rcases hs with hs | ⟨e2, hs⟩ <;> simp [issuesOf, hs, List.mem_append, hi]

/-- An issue raised on the content field survives into the payload's combined
issue list. -/
theorem content_issue_mem (fields : List (String × Json)) (i2 : Issue)
    (e2 : List Issue)
    (hC : parseContent (lookupField fields "content") = .error e2)
    (hi : i2 ∈ e2) :
    i2 ∈ issuesOf (Json.obj fields) := by
  have hs : safeParse (Json.obj fields) = .error e2
      ∨ ∃ e1, safeParse (Json.obj fields) = .error (e1 ++ e2) := by
    simp only [safeParse]
    cases hT : parseTitle (lookupField fields "title") with
    | ok t => exact Or.inl (by rw [hC])
    | error e1 => exact Or.inr ⟨e1, by rw [hC]⟩
  rcases hs with hs | ⟨e1, hs⟩ <;> simp [issuesOf, hs, List.mem_append, hi]

/-- A body that fails validation makes the create handler answer 400 with the
issue details. -/
theorem createNote_invalid (notes : List Note) (uid : String) (nextId now : Int)
    (j : Json) (issues : List Issue) (h : safeParse j = .error issues) :
    createNote notes uid nextId now j
      = (⟨400, .errorDetails "Invalid input" issues⟩, notes) := by
  simp [createNote, h]

/-- A body that fails validation makes the update handler answer 400 with the
issue details. -/
theorem updateNote_invalid (notes : List Note) (uid : String) (nid : Int)
    (j : Json) (issues : List Issue) (hpos : 0 < nid)
    (h : safeParse j = .error issues) :
    updateNote notes uid (some nid) j
      = (⟨400, .errorDetails "Invalid input" issues⟩, notes) := by
  simp only [updateNote, h]
  rw [if_neg (by omega : ¬ nid ≤ 0)]

/-- C6 (confirmed): validation passes exactly on bodies with a string title
of length 1 to 200 and an absent or at-most-5000-character string content;
any other body fails with a non-empty list of violations, each carrying a
field tag and a message — length violations with their specific field and
message — and both write handlers then answer 400 `Invalid input` with those
details. -/
theorem C6_validation_boundaries (j : Json) :
    ((∃ pd, safeParse j = .ok pd) ↔ spec_validBody j)
    ∧ (∀ issues, safeParse j = .error issues →
        issues ≠ [] ∧ (∀ i ∈ issues, i.message ≠ "") ∧
        (∀ fields, j = Json.obj fields →
          ∀ i ∈ issues, i.path = ["title"] ∨ i.path = ["content"]))
    ∧ (∀ fields t, j = Json.obj fields →
        lookupField fields "title" = some (Json.str t) →
        (t.length = 0 → (⟨["title"], "Title is required"⟩ : Issue) ∈ issuesOf j) ∧
        (200 < t.length → (⟨["title"], "Title too long"⟩ : Issue) ∈ issuesOf j))
    ∧ (∀ fields c, j = Json.obj fields →
        lookupField fields "content" = some (Json.str c) → 5000 < c.length →
        (⟨["content"], "Content too long"⟩ : Issue) ∈ issuesOf j)
    ∧ (∀ issues notes uid nextId now nid, safeParse j = .error issues → 0 < nid →
        createNote notes uid nextId now j
          = (⟨400, .errorDetails "Invalid input" issues⟩, notes)
        ∧ updateNote notes uid (some nid) j
          = (⟨400, .errorDetails "Invalid input" issues⟩, notes)) := by
  refine ⟨?_, ?_, ?_, ?_, ?_⟩
  · constructor
    · rintro ⟨pd, hpd⟩
      obtain ⟨fields, rfl, ht, hc⟩ := (safeParse_ok_iff _ _).mp hpd
      obtain ⟨hteq, h1, h2⟩ := (parseTitle_ok_iff _ _).mp ht
      refine ⟨fields, rfl, ⟨pd.title, hteq, h1, h2⟩, ?_⟩
      rcases (parseContent_ok_iff _ _).mp hc with ⟨hnone, -⟩ | ⟨s, hs, -, hlen⟩
      · exact Or.inl hnone
      · exact Or.inr ⟨s, hs, hlen⟩
    · rintro ⟨fields, rfl, ⟨t, hteq, h1, h2⟩, hcont⟩
      rcases hcont with hnone | ⟨c, hceq, hlen⟩
      · exact ⟨⟨t, none⟩, (safeParse_ok_iff _ _).mpr ⟨fields, rfl,
          (parseTitle_ok_iff _ _).mpr ⟨hteq, h1, h2⟩,
          (parseContent_ok_iff _ _).mpr (Or.inl ⟨hnone, rfl⟩)⟩⟩
      · exact ⟨⟨t, some c⟩, (safeParse_ok_iff _ _).mpr ⟨fields, rfl,
          (parseTitle_ok_iff _ _).mpr ⟨hteq, h1, h2⟩,
          (parseContent_ok_iff _ _).mpr (Or.inr ⟨c, hceq, rfl, hlen⟩)⟩⟩
  · intro issues hiss
    exact safeParse_error_spec j issues hiss
  · rintro fields t rfl hlk
    constructor
    · intro hlen
      have hT : parseTitle (lookupField fields "title")
          = .error [⟨["title"], "Title is required"⟩] := by
        rw [hlk]
        simp [parseTitle, show t.length < 1 by omega]
      exact title_issue_mem fields _ _ hT (List.mem_singleton.mpr rfl)
    · intro hlen
      have hT : parseTitle (lookupField fields "title")
          = .error [⟨["title"], "Title too long"⟩] := by
        rw [hlk]
        simp [parseTitle, show ¬ t.length < 1 by omega, hlen]
      exact title_issue_mem fields _ _ hT (List.mem_singleton.mpr rfl)
  · rintro fields c rfl hlk hlen
    have hC : parseContent (lookupField fields "content")
        = .error [⟨["content"], "Content too long"⟩] := by
      rw [hlk]
      simp [parseContent, hlen]
    exact content_issue_mem fields _ _ hC (List.mem_singleton.mpr rfl)
  · intro issues notes uid nextId now nid hiss hpos
    exact ⟨createNote_invalid notes uid nextId now j issues hiss,
      updateNote_invalid notes uid nid j issues hpos hiss⟩

/-- C7 (confirmed): on every authenticated route — all four are the
middleware `runAuthed` composed with their handler — a request whose
Authorization header yields no token is answered 401 `Missing token`, one
whose token the provider rejects (an error or no user in the reply) is
answered 401 `Invalid token`, and the two bodies are distinct. -/
theorem C7_auth_error_taxonomy (env : String) (h : Option String)
    (p : String → ProviderResult) (k : String → Response × List Note)
    (notes : List Note) :
    (extractToken h = none →
      runAuthed env h p k notes = (⟨401, .errorMsg "Missing token"⟩, notes))
    ∧ (∀ tok, extractToken h = some tok → p tok = .rejected →
      runAuthed env h p k notes = (⟨401, .errorMsg "Invalid token"⟩, notes))
    ∧ RespBody.errorMsg "Missing token" ≠ RespBody.errorMsg "Invalid token" := by
  refine ⟨?_, ?_, by decide⟩
  · intro h0
    simp [runAuthed, h0]
  · intro tok htok hrej
    simp [runAuthed, htok, hrej]

/-- C8 counterexample: a failure with status 418 and an empty message, in
development mode, is answered with the generic `Internal Server Error`
message, not with its actual (empty) message as the claim states. -/
theorem C8_cex_empty_message_in_development :
    respError (errorHandler ⟨some 418, "", none⟩ "development").body
      ≠ some (ErrObj.mk (some 418) "" none).message := by decide

/-- C8 (amended): the central handler's status is the failure's explicit
status when it carries a non-zero one and 500 otherwise; the error field is
`Internal Server Error` whenever NODE_ENV is not `development`; in
development it is the failure's message when that message is non-empty, and
`Internal Server Error` when it is empty. -/
theorem C8_error_mapper_redaction (e : ErrObj) (env : String) :
    (∀ s, e.status = some s → s ≠ 0 → (errorHandler e env).status = s)
    ∧ ((e.status = none ∨ e.status = some 0) → (errorHandler e env).status = 500)
    ∧ (env ≠ "development" →
        (errorHandler e env).body = .errorMsg "Internal Server Error")
    ∧ (env = "development" → e.message ≠ "" →
        respError (errorHandler e env).body = some e.message)
    ∧ (env = "development" → e.message = "" →
        respError (errorHandler e env).body = some "Internal Server Error") := by
  by_cases hdev : env = "development"
  · subst hdev
    refine ⟨?_, ?_, ?_, ?_, ?_⟩
    · intro s hs h0
      simp [errorHandler, hs, h0]
    · rintro (hs | hs) <;> simp [errorHandler, hs]
    · intro hne
      exact absurd rfl hne
    · intro _ hmsg
      simp [errorHandler, respError, hmsg]
    · intro _ hmsg
      simp [errorHandler, respError, hmsg]
  · refine ⟨?_, ?_, ?_, ?_, ?_⟩
    · intro s hs h0
      simp [errorHandler, hdev, hs, h0]
    · rintro (hs | hs) <;> simp [errorHandler, hdev, hs]
    · intro _
      simp [errorHandler, hdev]
    · intro hc
      exact absurd hc hdev
    · intro hc
      exact absurd hc hdev

/-- C9 (confirmed): a successful update overwrites only `title` and
`content`; the stored note keeps its id, owner, creation time and null
`deletedAt`, and every other row of the store survives unchanged. -/
theorem C9_update_frame (env : String) (h : Option String)
    (p : String → ProviderResult) (tok uid : String) (notes : List Note)
    (nid : Int) (body : Json) (pd : ParsedNote) (n : Note)
    (htok : extractToken h = some tok) (hp : p tok = .ok uid)
    (hpos : 0 < nid) (hparse : safeParse body = .ok pd)
    (hfind : findUnique notes nid = some n) (hown : n.userId = uid)
    (hact : n.deletedAt = none) :
    handlePut env h p notes (some nid) body
        = (⟨200, .note (upd pd n)⟩, updateById nid (upd pd) notes)
    ∧ (upd pd n).id = n.id ∧ (upd pd n).userId = n.userId
    ∧ (upd pd n).createdAt = n.createdAt ∧ (upd pd n).deletedAt = n.deletedAt
    ∧ (upd pd n).title = pd.title
    ∧ ∀ m ∈ notes, m.id ≠ nid → m ∈ updateById nid (upd pd) notes := by
  refine ⟨?_, rfl, rfl, rfl, rfl, rfl, ?_⟩
  · rw [handlePut, runAuthed_ok env h p _ notes tok uid htok hp]
    exact updateNote_success notes uid nid body pd n hpos hparse hfind hown hact
  · intro m hm hne
    exact mem_updateById_of_id_ne nid (upd pd) notes m hm hne

/-- C9 witness: alice updates her own active note; content was not supplied
and survives, as do id, owner, creation time and the null `deletedAt`. -/
theorem C9_update_frame_witness :
    handlePut "production" (some "Bearer t") pAlice [noteAct] (some 1)
        (Json.obj [("title", Json.str "new")])
      = (⟨200, .note (upd ⟨"new", none⟩ noteAct)⟩,
          updateById 1 (upd ⟨"new", none⟩) [noteAct])
    ∧ (upd ⟨"new", none⟩ noteAct).deletedAt = noteAct.deletedAt
    ∧ (upd ⟨"new", none⟩ noteAct).createdAt = noteAct.createdAt := by
  have h := C9_update_frame "production" (some "Bearer t") pAlice "t" "alice"
    [noteAct] 1 (Json.obj [("title", Json.str "new")]) ⟨"new", none⟩ noteAct
    (by decide) rfl (by decide) (by decide) (by decide) rfl rfl
  exact ⟨h.1, h.2.2.2.2.1, h.2.2.2.1⟩

/-- C10 (confirmed): the delete path has no already-deleted gate: the owning
caller deleting an already soft-deleted note gets 200 `success` and the
stored row's `deletedAt` is overwritten with the current time. -/
theorem C10_delete_overwrites_deletedAt (env : String) (h : Option String)
    (p : String → ProviderResult) (tok uid : String) (notes : List Note)
    (nid now t : Int) (n : Note)
    (htok : extractToken h = some tok) (hp : p tok = .ok uid)
    (hpos : 0 < nid) (hfind : findUnique notes nid = some n)
    (hown : n.userId = uid) (hdel : n.deletedAt = some t) :
    handleDelete env h p notes (some nid) now
        = (⟨200, .success⟩,
            updateById nid (fun m => { m with deletedAt := some now }) notes)
    ∧ ({ n with deletedAt := some now } : Note)
        ∈ updateById nid (fun m => { m with deletedAt := some now }) notes
    ∧ ({ n with deletedAt := some now } : Note).deletedAt = some now := by
  refine ⟨?_, ?_, rfl⟩
  · rw [handleDelete, runAuthed_ok env h p _ notes tok uid htok hp]
    exact deleteNote_success notes uid nid now n hpos hfind hown
  · exact rewritten_mem_updateById nid _ notes n hfind

/-- C10 witness: alice deletes her already soft-deleted note (old `deletedAt`
5) at time 99; the route answers 200 success and the row now carries
`deletedAt` 99. -/
theorem C10_delete_overwrites_deletedAt_witness :
    handleDelete "production" (some "Bearer t") pAlice [noteDel] (some 1) 99
        = (⟨200, .success⟩,
            updateById 1 (fun m => { m with deletedAt := some 99 }) [noteDel])
    ∧ ({ noteDel with deletedAt := some 99 } : Note)
        ∈ updateById 1 (fun m => { m with deletedAt := some 99 }) [noteDel] := by
  have h := C10_delete_overwrites_deletedAt "production" (some "Bearer t")
    pAlice "t" "alice" [noteDel] 1 99 5 noteDel (by decide) rfl (by decide)
    (by decide) rfl rfl
  exact ⟨h.1, h.2.1⟩

/-- C5 witness: alice lists a store holding two of her active notes, a
deleted note of hers and bob's note; the instantiated guarantees hold. -/
theorem C5_list_scoped_active_sorted_witness :
    handleList "production" (some "Bearer t") pAlice
        [⟨1, "a", none, "alice", 1, none⟩, ⟨2, "b", none, "alice", 2, none⟩,
         ⟨3, "c", none, "bob", 3, none⟩, ⟨4, "d", none, "alice", 4, some 9⟩]
        none none
      = (listNotes
          [⟨1, "a", none, "alice", 1, none⟩, ⟨2, "b", none, "alice", 2, none⟩,
           ⟨3, "c", none, "bob", 3, none⟩, ⟨4, "d", none, "alice", 4, some 9⟩]
          "alice" none none,
         [⟨1, "a", none, "alice", 1, none⟩, ⟨2, "b", none, "alice", 2, none⟩,
          ⟨3, "c", none, "bob", 3, none⟩, ⟨4, "d", none, "alice", 4, some 9⟩])
    ∧ List.Pairwise (fun a b => b.createdAt ≤ a.createdAt)
        (bodyNotes (listNotes
          [⟨1, "a", none, "alice", 1, none⟩, ⟨2, "b", none, "alice", 2, none⟩,
           ⟨3, "c", none, "bob", 3, none⟩, ⟨4, "d", none, "alice", 4, some 9⟩]
          "alice" none none).body) := by
  have h := C5_list_scoped_active_sorted "production" (some "Bearer t") pAlice
    "t" "alice"
    [⟨1, "a", none, "alice", 1, none⟩, ⟨2, "b", none, "alice", 2, none⟩,
     ⟨3, "c", none, "bob", 3, none⟩, ⟨4, "d", none, "alice", 4, some 9⟩]
    none none (by decide) rfl
  exact ⟨h.1, h.2.2.2⟩

end NotesApp
